import Mathlib

/-!
Verification of the separable Gaussian blur filter in
`src/image_processor.cpp` (`applyGaussianBlur`).

The C++ `double` arithmetic is modelled by `ℝ` (with `Real.exp` for
`std::exp`), 8-bit channels by `ℕ` values in `[0, 255]`, and the
`static_cast<uint8_t>` of a clamped non-negative double by
`Int.toNat ∘ Int.floor` (truncation toward zero).  Thrown
`std::invalid_argument` exceptions are modelled by `Except` with one
constructor per distinct validation message.
-/

set_option maxHeartbeats 1000000

namespace ImageProcessor

/-- RGB pixel, `struct Pixel` of image_processor.cpp: three 8-bit channels,
modelled as natural numbers (the default constructor gives black). -/
structure Pixel where
  r : ℕ
  g : ℕ
  b : ℕ
  deriving DecidableEq

/-- The three distinct validation failures thrown by `applyGaussianBlur`
(lines 73-83 of image_processor.cpp), named as in the spec. -/
inductive BlurError where
  | InvalidKernelSize
  | InvalidDimensions
  | EmptyImage
  deriving DecidableEq

/-- 3x3 all-black image with a single white pixel at the (0,0) corner:
the small fixed test image named by the spec. -/
def img33 : List (List Pixel) :=
  [[⟨255, 255, 255⟩, ⟨0, 0, 0⟩, ⟨0, 0, 0⟩],
   [⟨0, 0, 0⟩, ⟨0, 0, 0⟩, ⟨0, 0, 0⟩],
   [⟨0, 0, 0⟩, ⟨0, 0, 0⟩, ⟨0, 0, 0⟩]]

noncomputable section

/-- Unnormalized 1D Gaussian weight, lines 91-95: `x = i - center` with
`center = kernelSize / 2`, weight `exp(-(x*x) / (2.0*sigma*sigma))`. -/
def rawWeight (kernelSize : ℕ) (sigma : ℝ) (i : ℕ) : ℝ :=
  Real.exp (-(((i : ℝ) - ((kernelSize / 2 : ℕ) : ℝ)) *
      ((i : ℝ) - ((kernelSize / 2 : ℕ) : ℝ))) / (2 * sigma * sigma))

/-- Sum of the unnormalized weights (`sum` accumulated at line 94). -/
def kernelSum (kernelSize : ℕ) (sigma : ℝ) : ℝ :=
  ∑ i ∈ Finset.range kernelSize, rawWeight kernelSize sigma i

/-- Normalized 1D Gaussian kernel: each weight divided by the total sum
(lines 98-100). -/
def gKernel (kernelSize : ℕ) (sigma : ℝ) (i : ℕ) : ℝ :=
  rawWeight kernelSize sigma i / kernelSum kernelSize sigma

/-- Row-major pixel access `imageData[y][x]`, total on lists with the
default-constructed black pixel out of range (all verified accesses are
in range). -/
def pixelAt (imageData : List (List Pixel)) (y x : ℕ) : Pixel :=
  (imageData.getD y []).getD x ⟨0, 0, 0⟩

/-- Sample-coordinate clamping `std::max(0, std::min(len - 1, v))`
(lines 114 and 136), as a natural number index. -/
def clampIdx (len : ℕ) (v : ℤ) : ℕ :=
  (max 0 (min ((len : ℤ) - 1) v)).toNat

/-- Channel storage `static_cast<uint8_t>(std::max(0.0, std::min(255.0, v)))`
(lines 123-125 and 145-147): clamp to `[0, 255]`, then truncate toward
zero (floor, since the clamped value is non-negative). -/
def clampByte (v : ℝ) : ℕ :=
  (⌊max 0 (min 255 v)⌋).toNat

/-- Accumulated horizontal convolution sum for one channel at output
position `(y, x)` (lines 110-120): taps `k ∈ [0, kernelSize)` sample
`imageData[y][clamp(x + k - center)]`. -/
def hSum (imageData : List (List Pixel)) (width kernelSize : ℕ) (sigma : ℝ)
    (y x : ℕ) (ch : Pixel → ℕ) : ℝ :=
  ∑ k ∈ Finset.range kernelSize,
    (ch (pixelAt imageData y
        (clampIdx width ((x : ℤ) + (k : ℤ) - ((kernelSize / 2 : ℕ) : ℤ)))) : ℝ) *
      gKernel kernelSize sigma k

/-- Pixel of the intermediate buffer `temp` after the horizontal pass
(lines 122-125): each channel clamped to `[0, 255]` and truncated to an
8-bit value. -/
def tempPixel (imageData : List (List Pixel)) (width kernelSize : ℕ)
    (sigma : ℝ) (y x : ℕ) : Pixel :=
  ⟨clampByte (hSum imageData width kernelSize sigma y x Pixel.r),
   clampByte (hSum imageData width kernelSize sigma y x Pixel.g),
   clampByte (hSum imageData width kernelSize sigma y x Pixel.b)⟩

/-- Accumulated vertical convolution sum for one channel at output
position `(y, x)` (lines 132-142): taps sample the intermediate buffer
`temp[clamp(y + k - center)][x]`. -/
def vSum (imageData : List (List Pixel)) (width height kernelSize : ℕ)
    (sigma : ℝ) (y x : ℕ) (ch : Pixel → ℕ) : ℝ :=
  ∑ k ∈ Finset.range kernelSize,
    (ch (tempPixel imageData width kernelSize sigma
        (clampIdx height ((y : ℤ) + (k : ℤ) - ((kernelSize / 2 : ℕ) : ℤ))) x) : ℝ) *
      gKernel kernelSize sigma k

/-- Pixel of the final result grid after the vertical pass
(lines 144-147). -/
def resultPixel (imageData : List (List Pixel)) (width height kernelSize : ℕ)
    (sigma : ℝ) (y x : ℕ) : Pixel :=
  ⟨clampByte (vSum imageData width height kernelSize sigma y x Pixel.r),
   clampByte (vSum imageData width height kernelSize sigma y x Pixel.g),
   clampByte (vSum imageData width height kernelSize sigma y x Pixel.b)⟩

/-- The `height × width` result grid built by the two passes
(lines 103-149). -/
def blurGrid (imageData : List (List Pixel)) (width height kernelSize : ℕ)
    (sigma : ℝ) : List (List Pixel) :=
  (List.range height).map (fun y =>
    (List.range width).map (fun x =>
      resultPixel imageData width height kernelSize sigma y x))

/-- `applyGaussianBlur` of image_processor.cpp, lines 65-152: validation in
source order (kernel size, then dimensions, then emptiness), then the
separable two-pass blur. -/
def applyGaussianBlur (imageData : List (List Pixel))
    (width height kernelSize : ℤ) (sigma : ℝ) :
    Except BlurError (List (List Pixel)) :=
  if kernelSize < 3 ∨ kernelSize % 2 = 0 then .error .InvalidKernelSize
  else if width ≤ 0 ∨ height ≤ 0 then .error .InvalidDimensions
  else if imageData = [] ∨ imageData.headD [] = [] then .error .EmptyImage
  else .ok (blurGrid imageData width.toNat height.toNat kernelSize.toNat sigma)

/-- Modelled from the spec: the direct full 2D Gaussian convolution sum at
`(y, x)` using the outer product `gKernel j * gKernel k` of the same 1D
kernel, with the same edge-clamped sampling; not present in the source,
used only to compare against the two-pass implementation. -/
def direct2DSum (imageData : List (List Pixel)) (width height kernelSize : ℕ)
    (sigma : ℝ) (y x : ℕ) (ch : Pixel → ℕ) : ℝ :=
  ∑ j ∈ Finset.range kernelSize, ∑ k ∈ Finset.range kernelSize,
    (ch (pixelAt imageData
        (clampIdx height ((y : ℤ) + (j : ℤ) - ((kernelSize / 2 : ℕ) : ℤ)))
        (clampIdx width ((x : ℤ) + (k : ℤ) - ((kernelSize / 2 : ℕ) : ℤ)))) : ℝ) *
      (gKernel kernelSize sigma j * gKernel kernelSize sigma k)

/-- Modelled from the spec: the direct 2D convolution output pixel, clamped
and truncated once. -/
def direct2DPixel (imageData : List (List Pixel)) (width height kernelSize : ℕ)
    (sigma : ℝ) (y x : ℕ) : Pixel :=
  ⟨clampByte (direct2DSum imageData width height kernelSize sigma y x Pixel.r),
   clampByte (direct2DSum imageData width height kernelSize sigma y x Pixel.g),
   clampByte (direct2DSum imageData width height kernelSize sigma y x Pixel.b)⟩

/-- Modelled from the spec: the vertical-pass sum applied to the
full-precision horizontal sums, i.e. the two-pass decomposition the spec
calls mathematically exact, with no intermediate 8-bit quantization. -/
def fullPrecSum (imageData : List (List Pixel)) (width height kernelSize : ℕ)
    (sigma : ℝ) (y x : ℕ) (ch : Pixel → ℕ) : ℝ :=
  ∑ k ∈ Finset.range kernelSize,
    hSum imageData width kernelSize sigma
      (clampIdx height ((y : ℤ) + (k : ℤ) - ((kernelSize / 2 : ℕ) : ℤ))) x ch *
      gKernel kernelSize sigma k

end

/-! ## Basic kernel lemmas -/

lemma rawWeight_pos (kernelSize : ℕ) (sigma : ℝ) (i : ℕ) :
    0 < rawWeight kernelSize sigma i :=
  Real.exp_pos _

lemma kernelSum_pos (kernelSize : ℕ) (hk : 0 < kernelSize) (sigma : ℝ) :
    0 < kernelSum kernelSize sigma :=
  Finset.sum_pos (fun i _ => rawWeight_pos kernelSize sigma i)
    (Finset.nonempty_range_iff.mpr hk.ne')

lemma gKernel_pos (kernelSize : ℕ) (hk : 0 < kernelSize) (sigma : ℝ) (i : ℕ) :
    0 < gKernel kernelSize sigma i :=
  div_pos (rawWeight_pos kernelSize sigma i) (kernelSum_pos kernelSize hk sigma)

lemma sum_gKernel (kernelSize : ℕ) (hk : 0 < kernelSize) (sigma : ℝ) :
    ∑ i ∈ Finset.range kernelSize, gKernel kernelSize sigma i = 1 := by
  simp only [gKernel]
  rw [← Finset.sum_div]
  exact div_self (ne_of_gt (kernelSum_pos kernelSize hk sigma))

lemma rawWeight_symm (kernelSize m i : ℕ) (hm : kernelSize = 2 * m + 1)
    (hi : i < kernelSize) (sigma : ℝ) :
    rawWeight kernelSize sigma i = rawWeight kernelSize sigma (kernelSize - 1 - i) := by
  have hc : kernelSize / 2 = m := by omega
  have hsub : kernelSize - 1 - i = 2 * m - i := by omega
  have him : i ≤ 2 * m := by omega
  have hcast : ((2 * m - i : ℕ) : ℝ) = 2 * (m : ℝ) - (i : ℝ) := by
    push_cast [him]
    ring
  unfold rawWeight
  rw [hc, hsub, hcast]
  congr 1
  ring

/-! ## Clamping lemmas -/

lemma clampIdx_lt (len : ℕ) (hlen : 0 < len) (v : ℤ) : clampIdx len v < len := by
  unfold clampIdx
  have h1 : min ((len : ℤ) - 1) v ≤ (len : ℤ) - 1 := min_le_left _ _
  have h2 : max 0 (min ((len : ℤ) - 1) v) ≤ (len : ℤ) - 1 :=
    max_le (by omega) h1
  omega

lemma clampByte_le (v : ℝ) : clampByte v ≤ 255 := by
  unfold clampByte
  have h1 : max 0 (min 255 v) ≤ (255 : ℝ) :=
    max_le (by norm_num) (min_le_left _ _)
  have h2 : ⌊max 0 (min 255 v)⌋ ≤ (255 : ℤ) := by
    have := Int.floor_le_floor h1
    simpa using this
  omega

lemma clampByte_natCast (n : ℕ) (hn : n ≤ 255) : clampByte (n : ℝ) = n := by
  unfold clampByte
  rw [min_eq_right (by exact_mod_cast hn), max_eq_right (by positivity)]
  simp

lemma clampByte_eq_of (v : ℝ) (n : ℕ) (h1 : (n : ℝ) ≤ v)
    (h2 : v < (n : ℝ) + 1) (h3 : v ≤ 255) : clampByte v = n := by
  unfold clampByte
  rw [min_eq_right h3, max_eq_right (le_trans (by positivity) h1)]
  have hfl : ⌊v⌋ = (n : ℤ) := by
    rw [Int.floor_eq_iff]
    exact ⟨by exact_mod_cast h1, by exact_mod_cast h2⟩
  rw [hfl]
  simp

/-! ## Claim theorems -/

/-- C3: for odd kernelSize ≥ 3 and positive sigma, the generated 1D kernel
has kernelSize strictly positive weights whose sum is exactly 1 in real
arithmetic (hence within any floating-point tolerance). -/
theorem c3_kernel_normalized (kernelSize : ℕ) (sigma : ℝ)
    (h3 : 3 ≤ kernelSize) (hodd : Odd kernelSize) (hs : 0 < sigma) :
    (∀ i < kernelSize, 0 < gKernel kernelSize sigma i) ∧
      ∑ i ∈ Finset.range kernelSize, gKernel kernelSize sigma i = 1 :=
  ⟨fun i _ => gKernel_pos kernelSize (by omega) sigma i,
   sum_gKernel kernelSize (by omega) sigma⟩

/-- Witness for C3 at kernelSize = 3, sigma = 1. -/
theorem c3_witness :
    (3 ≤ 3 ∧ Odd 3 ∧ (0 : ℝ) < 1) ∧
      ((∀ i < 3, 0 < gKernel 3 1 i) ∧
        ∑ i ∈ Finset.range 3, gKernel 3 1 i = 1) :=
  ⟨⟨le_refl 3, by decide, by norm_num⟩,
   c3_kernel_normalized 3 1 (le_refl 3) (by decide) (by norm_num)⟩

/-- C4: for odd kernelSize ≥ 3 and positive sigma, the generated kernel is
symmetric around its center: kernel[i] = kernel[kernelSize - 1 - i] for
every i < kernelSize. -/
theorem c4_kernel_symmetric (kernelSize : ℕ) (sigma : ℝ) (i : ℕ)
    (h3 : 3 ≤ kernelSize) (hodd : Odd kernelSize) (hs : 0 < sigma)
    (hi : i < kernelSize) :
    gKernel kernelSize sigma i = gKernel kernelSize sigma (kernelSize - 1 - i) := by
  obtain ⟨m, hm⟩ := hodd
  unfold gKernel
  rw [rawWeight_symm kernelSize m i (by omega) hi sigma]

/-- Witness for C4 at kernelSize = 3, sigma = 1, i = 0. -/
theorem c4_witness :
    (3 ≤ 3 ∧ Odd 3 ∧ (0 : ℝ) < 1 ∧ 0 < 3) ∧
      gKernel 3 1 0 = gKernel 3 1 (3 - 1 - 0) :=
  ⟨⟨le_refl 3, by decide, by norm_num, by decide⟩,
   c4_kernel_symmetric 3 1 0 (le_refl 3) (by decide) (by norm_num) (by decide)⟩

/-- C2: invalid inputs fail with the distinct named validation failure
determined by the first violated check in source order — even/too-small
kernel size gives InvalidKernelSize, non-positive width or height gives
InvalidDimensions, an empty grid or empty first row gives EmptyImage —
and an error is returned, so no partial result grid is produced. -/
theorem c2_validation (imageData : List (List Pixel))
    (width height kernelSize : ℤ) (sigma : ℝ) :
    ((kernelSize < 3 ∨ kernelSize % 2 = 0) →
      applyGaussianBlur imageData width height kernelSize sigma =
        .error .InvalidKernelSize) ∧
    (¬(kernelSize < 3 ∨ kernelSize % 2 = 0) → (width ≤ 0 ∨ height ≤ 0) →
      applyGaussianBlur imageData width height kernelSize sigma =
        .error .InvalidDimensions) ∧
    (¬(kernelSize < 3 ∨ kernelSize % 2 = 0) → ¬(width ≤ 0 ∨ height ≤ 0) →
      (imageData = [] ∨ imageData.headD [] = []) →
      applyGaussianBlur imageData width height kernelSize sigma =
        .error .EmptyImage) := by
  unfold applyGaussianBlur
  exact ⟨fun h => by rw [if_pos h],
    fun h1 h2 => by rw [if_neg h1, if_pos h2],
    fun h1 h2 h3 => by rw [if_neg h1, if_neg h2, if_pos h3]⟩

/-- Witness for C2: kernelSize 4, width 0, and the empty grid each hit
their named failure. -/
theorem c2_witness :
    applyGaussianBlur [[⟨9, 9, 9⟩]] 1 1 4 1 = .error .InvalidKernelSize ∧
    applyGaussianBlur [[⟨9, 9, 9⟩]] 0 1 3 1 = .error .InvalidDimensions ∧
    applyGaussianBlur [] 1 1 3 1 = .error .EmptyImage :=
  ⟨(c2_validation [[⟨9, 9, 9⟩]] 1 1 4 1).1 (by decide),
   (c2_validation [[⟨9, 9, 9⟩]] 0 1 3 1).2.1 (by decide) (by decide),
   (c2_validation [] 1 1 3 1).2.2 (by decide) (by decide) (by decide)⟩

/-- C7: on every input passing validation, the returned grid has exactly
height rows and every row has exactly width entries. -/
theorem c7_dimension_preservation (imageData : List (List Pixel))
    (width height kernelSize : ℤ) (sigma : ℝ)
    (h1 : ¬(kernelSize < 3 ∨ kernelSize % 2 = 0))
    (h2 : ¬(width ≤ 0 ∨ height ≤ 0))
    (h3 : ¬(imageData = [] ∨ imageData.headD [] = [])) :
    ∃ res, applyGaussianBlur imageData width height kernelSize sigma = .ok res ∧
      res.length = height.toNat ∧ ∀ row ∈ res, row.length = width.toNat := by
  refine ⟨blurGrid imageData width.toNat height.toNat kernelSize.toNat sigma,
    ?_, ?_, ?_⟩
  · unfold applyGaussianBlur
    rw [if_neg h1, if_neg h2, if_neg h3]
  · simp [blurGrid]
  · intro row hrow
    simp only [blurGrid, List.mem_map, List.mem_range] at hrow
    obtain ⟨y, hy, rfl⟩ := hrow
    simp

/-- Witness for C7 on a 1x1 image with kernelSize 3. -/
theorem c7_witness :
    ¬((3 : ℤ) < 3 ∨ (3 : ℤ) % 2 = 0) ∧ ¬((1 : ℤ) ≤ 0 ∨ (1 : ℤ) ≤ 0) ∧
      ¬(([[(⟨9, 9, 9⟩ : Pixel)]] : List (List Pixel)) = [] ∨
        ([[(⟨9, 9, 9⟩ : Pixel)]] : List (List Pixel)).headD [] = []) ∧
      ∃ res, applyGaussianBlur [[⟨9, 9, 9⟩]] 1 1 3 1 = .ok res ∧
        res.length = (1 : ℤ).toNat ∧ ∀ row ∈ res, row.length = (1 : ℤ).toNat :=
  ⟨by decide, by decide, by decide,
   c7_dimension_preservation [[⟨9, 9, 9⟩]] 1 1 3 1
     (by decide) (by decide) (by decide)⟩

/-- C8: on every input passing validation, every channel of every pixel of
the returned grid lies in [0, 255] (each channel is a natural number, so
non-negativity is inherent, and each is produced by a single clamp of the
accumulated sum). -/
theorem c8_channel_bounds (imageData : List (List Pixel))
    (width height kernelSize : ℤ) (sigma : ℝ)
    (h1 : ¬(kernelSize < 3 ∨ kernelSize % 2 = 0))
    (h2 : ¬(width ≤ 0 ∨ height ≤ 0))
    (h3 : ¬(imageData = [] ∨ imageData.headD [] = [])) :
    ∃ res, applyGaussianBlur imageData width height kernelSize sigma = .ok res ∧
      ∀ row ∈ res, ∀ p ∈ row, p.r ≤ 255 ∧ p.g ≤ 255 ∧ p.b ≤ 255 := by
  refine ⟨blurGrid imageData width.toNat height.toNat kernelSize.toNat sigma,
    ?_, ?_⟩
  · unfold applyGaussianBlur
    rw [if_neg h1, if_neg h2, if_neg h3]
  · intro row hrow p hp
    simp only [blurGrid, List.mem_map, List.mem_range] at hrow
    obtain ⟨y, hy, rfl⟩ := hrow
    simp only [List.mem_map, List.mem_range] at hp
    obtain ⟨x, hx, rfl⟩ := hp
    exact ⟨clampByte_le _, clampByte_le _, clampByte_le _⟩

/-- Witness for C8 on a 1x1 image with kernelSize 3. -/
theorem c8_witness :
    ¬((3 : ℤ) < 3 ∨ (3 : ℤ) % 2 = 0) ∧ ¬((1 : ℤ) ≤ 0 ∨ (1 : ℤ) ≤ 0) ∧
      ¬(([[(⟨7, 8, 9⟩ : Pixel)]] : List (List Pixel)) = [] ∨
        ([[(⟨7, 8, 9⟩ : Pixel)]] : List (List Pixel)).headD [] = []) ∧
      ∃ res, applyGaussianBlur [[⟨7, 8, 9⟩]] 1 1 3 1 = .ok res ∧
        ∀ row ∈ res, ∀ p ∈ row, p.r ≤ 255 ∧ p.g ≤ 255 ∧ p.b ≤ 255 :=
  ⟨by decide, by decide, by decide,
   c8_channel_bounds [[⟨7, 8, 9⟩]] 1 1 3 1 (by decide) (by decide) (by decide)⟩

/-- C6: in each 1D pass, the sample coordinate for output position pos and
tap k is pos + k - center clamped to [0, axisLength - 1]: it always lands
inside the image, in-range coordinates are taken verbatim, coordinates
below 0 replicate the left/top edge pixel at index 0, and coordinates past
the end replicate the right/bottom edge pixel at index axisLength - 1; the
horizontal pass applies this along x with the row fixed, the vertical pass
along y with the column fixed. -/
theorem c6_edge_replicate (len : ℕ) (hlen : 0 < len) (v : ℤ) :
    clampIdx len v < len ∧
    (0 ≤ v → v ≤ (len : ℤ) - 1 → (clampIdx len v : ℤ) = v) ∧
    (v < 0 → clampIdx len v = 0) ∧
    ((len : ℤ) - 1 < v → clampIdx len v = len - 1) ∧
    (∀ imageData kernelSize sigma y x ch,
      hSum imageData len kernelSize sigma y x ch =
        ∑ k ∈ Finset.range kernelSize,
          (ch (pixelAt imageData y
            (clampIdx len ((x : ℤ) + (k : ℤ) - ((kernelSize / 2 : ℕ) : ℤ)))) : ℝ) *
            gKernel kernelSize sigma k) ∧
    (∀ imageData width kernelSize sigma y x ch,
      vSum imageData width len kernelSize sigma y x ch =
        ∑ k ∈ Finset.range kernelSize,
          (ch (tempPixel imageData width kernelSize sigma
            (clampIdx len ((y : ℤ) + (k : ℤ) - ((kernelSize / 2 : ℕ) : ℤ))) x) : ℝ) *
            gKernel kernelSize sigma k) := by
  refine ⟨clampIdx_lt len hlen v, ?_, ?_, ?_,
    fun _ _ _ _ _ _ => rfl, fun _ _ _ _ _ _ _ => rfl⟩
  · intro h0 hv
    unfold clampIdx
    omega
  · intro hv
    unfold clampIdx
    omega
  · intro hv
    unfold clampIdx
    omega

/-- Witness for C6 at axis length 3 and raw coordinate -2. -/
theorem c6_witness :
    0 < 3 ∧
    (clampIdx 3 (-2) < 3 ∧
    (0 ≤ (-2 : ℤ) → (-2 : ℤ) ≤ (3 : ℤ) - 1 → (clampIdx 3 (-2) : ℤ) = -2) ∧
    ((-2 : ℤ) < 0 → clampIdx 3 (-2) = 0) ∧
    ((3 : ℤ) - 1 < -2 → clampIdx 3 (-2) = 3 - 1) ∧
    (∀ imageData kernelSize sigma y x ch,
      hSum imageData 3 kernelSize sigma y x ch =
        ∑ k ∈ Finset.range kernelSize,
          (ch (pixelAt imageData y
            (clampIdx 3 ((x : ℤ) + (k : ℤ) - ((kernelSize / 2 : ℕ) : ℤ)))) : ℝ) *
            gKernel kernelSize sigma k) ∧
    (∀ imageData width kernelSize sigma y x ch,
      vSum imageData width 3 kernelSize sigma y x ch =
        ∑ k ∈ Finset.range kernelSize,
          (ch (tempPixel imageData width kernelSize sigma
            (clampIdx 3 ((y : ℤ) + (k : ℤ) - ((kernelSize / 2 : ℕ) : ℤ))) x) : ℝ) *
            gKernel kernelSize sigma k)) :=
  ⟨by decide, c6_edge_replicate 3 (by decide) (-2)⟩

/-! ## Uniform image lemmas -/

lemma pixelAt_replicate (hn wn : ℕ) (p : Pixel) (y x : ℕ)
    (hy : y < hn) (hx : x < wn) :
    pixelAt (List.replicate hn (List.replicate wn p)) y x = p := by
  simp [pixelAt, List.getD_eq_getElem?_getD, List.getElem?_replicate, hy, hx]

lemma hSum_const (p : Pixel) (hn wn ks : ℕ) (sigma : ℝ) (y x : ℕ)
    (hw : 0 < wn) (hks : 0 < ks) (hy : y < hn) (ch : Pixel → ℕ) :
    hSum (List.replicate hn (List.replicate wn p)) wn ks sigma y x ch = ch p := by
  unfold hSum
  have hterm : ∀ k ∈ Finset.range ks,
      (ch (pixelAt (List.replicate hn (List.replicate wn p)) y
        (clampIdx wn ((x : ℤ) + (k : ℤ) - ((ks / 2 : ℕ) : ℤ)))) : ℝ) *
        gKernel ks sigma k = (ch p : ℝ) * gKernel ks sigma k := by
    intro k _
    rw [pixelAt_replicate hn wn p y _ hy (clampIdx_lt wn hw _)]
  rw [Finset.sum_congr rfl hterm, ← Finset.mul_sum, sum_gKernel ks hks, mul_one]

lemma tempPixel_const (p : Pixel) (hn wn ks : ℕ) (sigma : ℝ) (y x : ℕ)
    (hw : 0 < wn) (hks : 0 < ks) (hy : y < hn)
    (hr : p.r ≤ 255) (hg : p.g ≤ 255) (hb : p.b ≤ 255) :
    tempPixel (List.replicate hn (List.replicate wn p)) wn ks sigma y x = p := by
  unfold tempPixel
  rw [hSum_const p hn wn ks sigma y x hw hks hy,
    hSum_const p hn wn ks sigma y x hw hks hy,
    hSum_const p hn wn ks sigma y x hw hks hy,
    clampByte_natCast _ hr, clampByte_natCast _ hg, clampByte_natCast _ hb]

lemma resultPixel_const (p : Pixel) (hn wn ks : ℕ) (sigma : ℝ) (y x : ℕ)
    (hw : 0 < wn) (hh : 0 < hn) (hks : 0 < ks) (hx : x < wn)
    (hr : p.r ≤ 255) (hg : p.g ≤ 255) (hb : p.b ≤ 255) :
    resultPixel (List.replicate hn (List.replicate wn p)) wn hn ks sigma y x = p := by
  have hv : ∀ ch : Pixel → ℕ,
      vSum (List.replicate hn (List.replicate wn p)) wn hn ks sigma y x ch = ch p := by
    intro ch
    unfold vSum
    have hterm : ∀ k ∈ Finset.range ks,
        (ch (tempPixel (List.replicate hn (List.replicate wn p)) wn ks sigma
          (clampIdx hn ((y : ℤ) + (k : ℤ) - ((ks / 2 : ℕ) : ℤ))) x) : ℝ) *
          gKernel ks sigma k = (ch p : ℝ) * gKernel ks sigma k := by
      intro k _
      rw [tempPixel_const p hn wn ks sigma _ x hw hks (clampIdx_lt hn hh _) hr hg hb]
    rw [Finset.sum_congr rfl hterm, ← Finset.mul_sum, sum_gKernel ks hks, mul_one]
  unfold resultPixel
  rw [hv, hv, hv, clampByte_natCast _ hr, clampByte_natCast _ hg,
    clampByte_natCast _ hb]

/-- C5: blurring a solid-color image (all pixels equal, channels in the
8-bit range) with any valid parameters returns the input grid unchanged. -/
theorem c5_uniform_identity (width height kernelSize : ℤ) (sigma : ℝ) (p : Pixel)
    (hks : 3 ≤ kernelSize) (hodd : kernelSize % 2 = 1)
    (hw : 0 < width) (hh : 0 < height) (hs : 0 < sigma)
    (hr : p.r ≤ 255) (hg : p.g ≤ 255) (hb : p.b ≤ 255) :
    applyGaussianBlur
        (List.replicate height.toNat (List.replicate width.toNat p))
        width height kernelSize sigma =
      .ok (List.replicate height.toNat (List.replicate width.toNat p)) := by
  have hwn : 0 < width.toNat := by omega
  have hhn : 0 < height.toNat := by omega
  have hksn : 0 < kernelSize.toNat := by omega
  unfold applyGaussianBlur
  rw [if_neg (by omega), if_neg (by omega), if_neg ?hne]
  case hne =>
    obtain ⟨n, hn⟩ : ∃ n, height.toNat = n + 1 := ⟨height.toNat - 1, by omega⟩
    obtain ⟨m, hm⟩ : ∃ m, width.toNat = m + 1 := ⟨width.toNat - 1, by omega⟩
    rw [hn, hm]
    simp [List.replicate_succ]
  congr 1
  unfold blurGrid
  have hrow : ∀ y < height.toNat,
      (List.range width.toNat).map
        (fun x => resultPixel
          (List.replicate height.toNat (List.replicate width.toNat p))
          width.toNat height.toNat kernelSize.toNat sigma y x) =
        List.replicate width.toNat p := by
    intro y hy
    refine List.eq_replicate_iff.mpr ⟨by simp, ?_⟩
    intro q hq
    simp only [List.mem_map, List.mem_range] at hq
    obtain ⟨x, hx, rfl⟩ := hq
    exact resultPixel_const p height.toNat width.toNat kernelSize.toNat sigma y x
      hwn hhn hksn hx hr hg hb
  refine List.eq_replicate_iff.mpr ⟨by simp, ?_⟩
  intro row hrw
  simp only [List.mem_map, List.mem_range] at hrw
  obtain ⟨y, hy, rfl⟩ := hrw
  exact hrow y hy

/-- Witness for C5 on a 1x1 solid image with kernelSize 3, sigma 1. -/
theorem c5_witness :
    ((3 : ℤ) ≤ 3 ∧ (3 : ℤ) % 2 = 1 ∧ (0 : ℤ) < 1 ∧ (0 : ℤ) < 1 ∧ (0 : ℝ) < 1 ∧
      (Pixel.mk 7 8 9).r ≤ 255 ∧ (Pixel.mk 7 8 9).g ≤ 255 ∧
      (Pixel.mk 7 8 9).b ≤ 255) ∧
    applyGaussianBlur
        (List.replicate (1 : ℤ).toNat (List.replicate (1 : ℤ).toNat ⟨7, 8, 9⟩))
        1 1 3 1 =
      .ok (List.replicate (1 : ℤ).toNat (List.replicate (1 : ℤ).toNat ⟨7, 8, 9⟩)) :=
  ⟨⟨by decide, by decide, by decide, by decide, by norm_num, by decide, by decide,
    by decide⟩,
   c5_uniform_identity 1 1 3 1 ⟨7, 8, 9⟩ (by decide) (by decide) (by decide)
     (by decide) (by norm_num) (by decide) (by decide) (by decide)⟩

/-- C1 (amended): the two-pass separable decomposition is exact for the
full-precision sums: feeding the full-precision horizontal sums (no
intermediate 8-bit quantization) into the vertical pass gives, at every
position and channel, exactly the direct full 2D Gaussian convolution with
the outer-product kernel, and hence the same stored byte after the single
final clamp-and-truncate. -/
theorem c1_amended_separability (imageData : List (List Pixel))
    (width height kernelSize : ℕ) (sigma : ℝ) (y x : ℕ) (ch : Pixel → ℕ) :
    fullPrecSum imageData width height kernelSize sigma y x ch =
      direct2DSum imageData width height kernelSize sigma y x ch ∧
    clampByte (fullPrecSum imageData width height kernelSize sigma y x ch) =
      clampByte (direct2DSum imageData width height kernelSize sigma y x ch) := by
  have h : fullPrecSum imageData width height kernelSize sigma y x ch =
      direct2DSum imageData width height kernelSize sigma y x ch := by
    unfold fullPrecSum direct2DSum hSum
    refine Finset.sum_congr rfl fun j _ => ?_
    rw [Finset.sum_mul]
    refine Finset.sum_congr rfl fun k _ => ?_
    ring
  exact ⟨h, by rw [h]⟩

/-! ## Reading only the top-left region -/

lemma pixelAt_take (img : List (List Pixel)) (wn hn y x : ℕ)
    (hy : y < hn) (hx : x < wn) (hrows : hn ≤ img.length)
    (hcols : ∀ row ∈ img, wn ≤ row.length) :
    pixelAt ((img.take hn).map (fun row => row.take wn)) y x = pixelAt img y x := by
  have hyl : y < img.length := lt_of_lt_of_le hy hrows
  have hrow : wn ≤ (img[y]).length := hcols _ (img.getElem_mem hyl)
  unfold pixelAt
  rw [List.getD_eq_getElem?_getD, List.getD_eq_getElem?_getD,
    List.getElem?_map, List.getElem?_take, if_pos hy,
    List.getElem?_eq_getElem hyl]
  simp only [Option.map_some', Option.getD_some]
  rw [List.getD_eq_getElem?_getD, List.getD_eq_getElem?_getD,
    List.getElem?_take, if_pos hx]
  rw [List.getElem?_eq_getElem hyl]
  simp

lemma hSum_take (img : List (List Pixel)) (wn hn ks : ℕ) (sigma : ℝ)
    (y x : ℕ) (ch : Pixel → ℕ) (hw : 0 < wn) (hy : y < hn)
    (hrows : hn ≤ img.length) (hcols : ∀ row ∈ img, wn ≤ row.length) :
    hSum ((img.take hn).map (fun row => row.take wn)) wn ks sigma y x ch =
      hSum img wn ks sigma y x ch :=
  Finset.sum_congr rfl fun k _ => by
    rw [pixelAt_take img wn hn y _ hy (clampIdx_lt wn hw _) hrows hcols]

lemma tempPixel_take (img : List (List Pixel)) (wn hn ks : ℕ) (sigma : ℝ)
    (y x : ℕ) (hw : 0 < wn) (hy : y < hn)
    (hrows : hn ≤ img.length) (hcols : ∀ row ∈ img, wn ≤ row.length) :
    tempPixel ((img.take hn).map (fun row => row.take wn)) wn ks sigma y x =
      tempPixel img wn ks sigma y x := by
  unfold tempPixel
  rw [hSum_take img wn hn ks sigma y x Pixel.r hw hy hrows hcols,
    hSum_take img wn hn ks sigma y x Pixel.g hw hy hrows hcols,
    hSum_take img wn hn ks sigma y x Pixel.b hw hy hrows hcols]

lemma resultPixel_take (img : List (List Pixel)) (wn hn ks : ℕ) (sigma : ℝ)
    (y x : ℕ) (hw : 0 < wn) (hh : 0 < hn)
    (hrows : hn ≤ img.length) (hcols : ∀ row ∈ img, wn ≤ row.length) :
    resultPixel ((img.take hn).map (fun row => row.take wn)) wn hn ks sigma y x =
      resultPixel img wn hn ks sigma y x := by
  have hv : ∀ ch : Pixel → ℕ,
      vSum ((img.take hn).map (fun row => row.take wn)) wn hn ks sigma y x ch =
        vSum img wn hn ks sigma y x ch := by
    intro ch
    refine Finset.sum_congr rfl fun k _ => ?_
    rw [tempPixel_take img wn hn ks sigma _ x hw (clampIdx_lt hn hh _) hrows hcols]
  unfold resultPixel
  rw [hv, hv, hv]

/-- C10: when width and height are positive and the grid has at least
height rows each with at least width columns (possibly more), no
validation failure is raised: the call returns the height-by-width grid of
the two passes, and that result is unchanged if the grid is first cut down
to its top-left height-by-width region — the function reads only positions
with y in [0, height) and x in [0, width). -/
theorem c10_top_left_region (imageData : List (List Pixel))
    (width height kernelSize : ℤ) (sigma : ℝ)
    (hks : ¬(kernelSize < 3 ∨ kernelSize % 2 = 0))
    (hw : 0 < width) (hh : 0 < height)
    (hrows : height.toNat ≤ imageData.length)
    (hcols : ∀ row ∈ imageData, width.toNat ≤ row.length) :
    applyGaussianBlur imageData width height kernelSize sigma =
      .ok (blurGrid imageData width.toNat height.toNat kernelSize.toNat sigma) ∧
    applyGaussianBlur imageData width height kernelSize sigma =
      applyGaussianBlur
        ((imageData.take height.toNat).map (fun row => row.take width.toNat))
        width height kernelSize sigma := by
  have hwn : 0 < width.toNat := by omega
  have hhn : 0 < height.toNat := by omega
  obtain ⟨r, t, rfl⟩ : ∃ r t, imageData = r :: t := by
    cases imageData with
    | nil => simp at hrows; omega
    | cons r t => exact ⟨r, t, rfl⟩
  have hrlen : width.toNat ≤ r.length := hcols r (by simp)
  have hne1 : ¬((r :: t) = [] ∨ (r :: t).headD [] = []) := by
    simp only [List.headD_cons]
    rintro (h | h)
    · exact List.noConfusion h
    · rw [h] at hrlen
      simp at hrlen
      omega
  obtain ⟨n, hn⟩ : ∃ n, height.toNat = n + 1 := ⟨height.toNat - 1, by omega⟩
  have hok : applyGaussianBlur (r :: t) width height kernelSize sigma =
      .ok (blurGrid (r :: t) width.toNat height.toNat kernelSize.toNat sigma) := by
    unfold applyGaussianBlur
    rw [if_neg hks, if_neg (by omega), if_neg hne1]
  refine ⟨hok, ?_⟩
  have hne2 : ¬((((r :: t).take height.toNat).map
        (fun row => row.take width.toNat)) = [] ∨
      (((r :: t).take height.toNat).map
        (fun row => row.take width.toNat)).headD [] = []) := by
    rw [hn]
    simp only [List.take_succ_cons, List.map_cons, List.headD_cons]
    rintro (h | h)
    · exact List.noConfusion h
    · have hlen := congrArg List.length h
      rw [List.length_take] at hlen
      simp only [List.length_nil] at hlen
      omega
  have hok2 : applyGaussianBlur
      (((r :: t).take height.toNat).map (fun row => row.take width.toNat))
      width height kernelSize sigma =
      .ok (blurGrid (((r :: t).take height.toNat).map
        (fun row => row.take width.toNat))
        width.toNat height.toNat kernelSize.toNat sigma) := by
    unfold applyGaussianBlur
    rw [if_neg hks, if_neg (by omega), if_neg hne2]
  rw [hok, hok2]
  congr 1
  unfold blurGrid
  refine List.map_congr_left fun y hy => ?_
  refine List.map_congr_left fun x hx => ?_
  exact (resultPixel_take (r :: t) width.toNat height.toNat kernelSize.toNat
    sigma y x hwn hhn hrows hcols).symm

/-- Witness for C10: a 2x2 grid processed with width = height = 1. -/
theorem c10_witness :
    ¬((3 : ℤ) < 3 ∨ (3 : ℤ) % 2 = 0) ∧ (0 : ℤ) < 1 ∧ (0 : ℤ) < 1 ∧
      (1 : ℤ).toNat ≤ ([[⟨1, 2, 3⟩, ⟨4, 5, 6⟩], [⟨7, 8, 9⟩, ⟨10, 11, 12⟩]] :
        List (List Pixel)).length ∧
      (∀ row ∈ ([[⟨1, 2, 3⟩, ⟨4, 5, 6⟩], [⟨7, 8, 9⟩, ⟨10, 11, 12⟩]] :
        List (List Pixel)), (1 : ℤ).toNat ≤ row.length) ∧
      (applyGaussianBlur [[⟨1, 2, 3⟩, ⟨4, 5, 6⟩], [⟨7, 8, 9⟩, ⟨10, 11, 12⟩]]
          1 1 3 1 =
        .ok (blurGrid [[⟨1, 2, 3⟩, ⟨4, 5, 6⟩], [⟨7, 8, 9⟩, ⟨10, 11, 12⟩]]
          (1 : ℤ).toNat (1 : ℤ).toNat (3 : ℤ).toNat 1) ∧
      applyGaussianBlur [[⟨1, 2, 3⟩, ⟨4, 5, 6⟩], [⟨7, 8, 9⟩, ⟨10, 11, 12⟩]]
          1 1 3 1 =
        applyGaussianBlur
          ((([[⟨1, 2, 3⟩, ⟨4, 5, 6⟩], [⟨7, 8, 9⟩, ⟨10, 11, 12⟩]] :
            List (List Pixel)).take (1 : ℤ).toNat).map
            (fun row => row.take (1 : ℤ).toNat)) 1 1 3 1) :=
  ⟨by decide, by decide, by decide, by decide, by decide,
   c10_top_left_region [[⟨1, 2, 3⟩, ⟨4, 5, 6⟩], [⟨7, 8, 9⟩, ⟨10, 11, 12⟩]]
     1 1 3 1 (by decide) (by decide) (by decide) (by decide) (by decide)⟩

/-! ## Numeric evaluation at the 3x3 test image, kernelSize 3, sigma 1 -/

lemma exp_half_sq : Real.exp ((1 : ℝ) / 2) ^ 2 = Real.exp 1 := by
  rw [sq, ← Real.exp_add]
  norm_num

lemma exp_half_gt : (23 / 14 : ℝ) < Real.exp ((1 : ℝ) / 2) := by
  have h2 : (23 / 14 : ℝ) ^ 2 < Real.exp ((1 : ℝ) / 2) ^ 2 := by
    rw [exp_half_sq]
    nlinarith [Real.exp_one_gt_d9]
  exact lt_of_pow_lt_pow_left₀ 2 (Real.exp_pos _).le h2

lemma exp_half_lt : Real.exp ((1 : ℝ) / 2) < 1663 / 1000 := by
  have h2 : Real.exp ((1 : ℝ) / 2) ^ 2 < (1663 / 1000 : ℝ) ^ 2 := by
    rw [exp_half_sq]
    nlinarith [Real.exp_one_lt_d9]
  exact lt_of_pow_lt_pow_left₀ 2 (by norm_num) h2

lemma rawWeight_310 : rawWeight 3 1 0 = (Real.exp ((1 : ℝ) / 2))⁻¹ := by
  have h : rawWeight 3 1 0 = Real.exp (-((1 : ℝ) / 2)) := by
    unfold rawWeight
    norm_num
  rw [h, Real.exp_neg]

lemma rawWeight_311 : rawWeight 3 1 1 = 1 := by
  have h : rawWeight 3 1 1 = Real.exp 0 := by
    unfold rawWeight
    norm_num
  rw [h, Real.exp_zero]

lemma rawWeight_312 : rawWeight 3 1 2 = (Real.exp ((1 : ℝ) / 2))⁻¹ := by
  have h : rawWeight 3 1 2 = Real.exp (-((1 : ℝ) / 2)) := by
    unfold rawWeight
    norm_num
  rw [h, Real.exp_neg]

lemma kernelSum_31 : kernelSum 3 1 = 2 * (Real.exp ((1 : ℝ) / 2))⁻¹ + 1 := by
  unfold kernelSum
  rw [Finset.sum_range_succ, Finset.sum_range_succ, Finset.sum_range_succ,
    Finset.sum_range_zero, rawWeight_310, rawWeight_311, rawWeight_312]
  ring

lemma gKernel_310 : gKernel 3 1 0 = (Real.exp ((1 : ℝ) / 2) + 2)⁻¹ := by
  have hne : Real.exp ((1 : ℝ) / 2) ≠ 0 := (Real.exp_pos _).ne'
  have hne2 : Real.exp ((1 : ℝ) / 2) + 2 ≠ 0 := by positivity
  unfold gKernel
  rw [rawWeight_310, kernelSum_31]
  field_simp
  ring

lemma gKernel_311 : gKernel 3 1 1 =
    Real.exp ((1 : ℝ) / 2) / (Real.exp ((1 : ℝ) / 2) + 2) := by
  have hne : Real.exp ((1 : ℝ) / 2) ≠ 0 := (Real.exp_pos _).ne'
  have hne2 : Real.exp ((1 : ℝ) / 2) + 2 ≠ 0 := by positivity
  unfold gKernel
  rw [rawWeight_311, kernelSum_31]
  field_simp
  ring

lemma gKernel_312 : gKernel 3 1 2 = (Real.exp ((1 : ℝ) / 2) + 2)⁻¹ := by
  have hne : Real.exp ((1 : ℝ) / 2) ≠ 0 := (Real.exp_pos _).ne'
  have hne2 : Real.exp ((1 : ℝ) / 2) + 2 ≠ 0 := by positivity
  unfold gKernel
  rw [rawWeight_312, kernelSum_31]
  field_simp
  ring

lemma clampByte_zero : clampByte 0 = 0 := by
  unfold clampByte
  norm_num

lemma clampByte_val_69 :
    clampByte (255 * (Real.exp ((1 : ℝ) / 2) + 2)⁻¹) = 69 := by
  have hlo := exp_half_gt
  have hhi := exp_half_lt
  have h2 : (0 : ℝ) < Real.exp ((1 : ℝ) / 2) + 2 := by positivity
  have e : 255 * (Real.exp ((1 : ℝ) / 2) + 2)⁻¹ =
      255 / (Real.exp ((1 : ℝ) / 2) + 2) := by ring
  rw [e]
  apply clampByte_eq_of
  · rw [le_div_iff₀ h2]
    push_cast
    nlinarith
  · rw [div_lt_iff₀ h2]
    push_cast
    nlinarith
  · rw [div_le_iff₀ h2]
    nlinarith

lemma gt_69_of_255A : (69 : ℝ) < 255 * (Real.exp ((1 : ℝ) / 2) + 2)⁻¹ := by
  have hhi := exp_half_lt
  have h2 : (0 : ℝ) < Real.exp ((1 : ℝ) / 2) + 2 := by positivity
  have e : 255 * (Real.exp ((1 : ℝ) / 2) + 2)⁻¹ =
      255 / (Real.exp ((1 : ℝ) / 2) + 2) := by ring
  rw [e, lt_div_iff₀ h2]
  nlinarith

lemma clampByte_val_18 :
    clampByte (69 * (Real.exp ((1 : ℝ) / 2) + 2)⁻¹) = 18 := by
  have hlo := exp_half_gt
  have hhi := exp_half_lt
  have h2 : (0 : ℝ) < Real.exp ((1 : ℝ) / 2) + 2 := by positivity
  have e : 69 * (Real.exp ((1 : ℝ) / 2) + 2)⁻¹ =
      69 / (Real.exp ((1 : ℝ) / 2) + 2) := by ring
  rw [e]
  apply clampByte_eq_of
  · rw [le_div_iff₀ h2]
    push_cast
    nlinarith
  · rw [div_lt_iff₀ h2]
    push_cast
    nlinarith
  · rw [div_le_iff₀ h2]
    nlinarith

lemma clampByte_val_19 :
    clampByte (255 * ((Real.exp ((1 : ℝ) / 2) + 2)⁻¹ *
      (Real.exp ((1 : ℝ) / 2) + 2)⁻¹)) = 19 := by
  have hlo := exp_half_gt
  have hhi := exp_half_lt
  have h2 : (0 : ℝ) < Real.exp ((1 : ℝ) / 2) + 2 := by positivity
  have hup : Real.exp ((1 : ℝ) / 2) + 2 < 3663 / 1000 := by linarith
  have hdn : (51 : ℝ) / 14 < Real.exp ((1 : ℝ) / 2) + 2 := by linarith
  have e : 255 * ((Real.exp ((1 : ℝ) / 2) + 2)⁻¹ *
      (Real.exp ((1 : ℝ) / 2) + 2)⁻¹) =
      255 / ((Real.exp ((1 : ℝ) / 2) + 2) * (Real.exp ((1 : ℝ) / 2) + 2)) := by
    field_simp
  have h2' : (0 : ℝ) < (Real.exp ((1 : ℝ) / 2) + 2) *
      (Real.exp ((1 : ℝ) / 2) + 2) := by positivity
  rw [e]
  apply clampByte_eq_of
  · rw [le_div_iff₀ h2']
    push_cast
    nlinarith [mul_lt_mul_of_pos_left hup h2,
      mul_lt_mul_of_pos_right hup (by norm_num : (0 : ℝ) < 3663 / 1000)]
  · rw [div_lt_iff₀ h2']
    push_cast
    nlinarith [mul_lt_mul_of_pos_left hdn h2,
      mul_lt_mul_of_pos_right hdn (by norm_num : (0 : ℝ) < 51 / 14)]
  · rw [div_le_iff₀ h2']
    nlinarith

/-! ## Concrete evaluation of the passes on the test image -/

lemma hSum_img33_01 (ch : Pixel → ℕ) (hw : ch ⟨255, 255, 255⟩ = 255)
    (hb : ch ⟨0, 0, 0⟩ = 0) :
    hSum img33 3 3 1 0 1 ch = 255 * gKernel 3 1 0 := by
  unfold hSum
  rw [Finset.sum_range_succ, Finset.sum_range_succ, Finset.sum_range_succ,
    Finset.sum_range_zero]
  norm_num [clampIdx, pixelAt, img33, hw, hb]
  exact Or.inl hb

lemma pixelAt_img33_1 (x : ℕ) : pixelAt img33 1 x = ⟨0, 0, 0⟩ := by
  rcases x with _ | _ | _ | n <;> rfl

lemma pixelAt_img33_2 (x : ℕ) : pixelAt img33 2 x = ⟨0, 0, 0⟩ := by
  rcases x with _ | _ | _ | n <;> rfl

lemma hSum_img33_black (y : ℕ) (hy : y = 1 ∨ y = 2) (x : ℕ) (ch : Pixel → ℕ)
    (hb : ch ⟨0, 0, 0⟩ = 0) : hSum img33 3 3 1 y x ch = 0 := by
  unfold hSum
  refine Finset.sum_eq_zero fun k _ => ?_
  rcases hy with rfl | rfl
  · rw [pixelAt_img33_1, hb]
    norm_num
  · rw [pixelAt_img33_2, hb]
    norm_num

lemma temp33_01 : tempPixel img33 3 3 1 0 1 = ⟨69, 69, 69⟩ := by
  unfold tempPixel
  rw [hSum_img33_01 Pixel.r rfl rfl, hSum_img33_01 Pixel.g rfl rfl,
    hSum_img33_01 Pixel.b rfl rfl, gKernel_310, clampByte_val_69]

lemma temp33_11 : tempPixel img33 3 3 1 1 1 = ⟨0, 0, 0⟩ := by
  unfold tempPixel
  rw [hSum_img33_black 1 (Or.inl rfl) 1 Pixel.r rfl,
    hSum_img33_black 1 (Or.inl rfl) 1 Pixel.g rfl,
    hSum_img33_black 1 (Or.inl rfl) 1 Pixel.b rfl, clampByte_zero]

lemma temp33_21 : tempPixel img33 3 3 1 2 1 = ⟨0, 0, 0⟩ := by
  unfold tempPixel
  rw [hSum_img33_black 2 (Or.inr rfl) 1 Pixel.r rfl,
    hSum_img33_black 2 (Or.inr rfl) 1 Pixel.g rfl,
    hSum_img33_black 2 (Or.inr rfl) 1 Pixel.b rfl, clampByte_zero]

lemma vSum33_11 (ch : Pixel → ℕ) (h69 : ch ⟨69, 69, 69⟩ = 69)
    (h0 : ch ⟨0, 0, 0⟩ = 0) :
    vSum img33 3 3 3 1 1 1 ch = 69 * gKernel 3 1 0 := by
  unfold vSum
  have hidx : ∀ k ∈ Finset.range 3,
      (ch (tempPixel img33 3 3 1
        (clampIdx 3 (((1 : ℕ) : ℤ) + ((k : ℕ) : ℤ) - (((3 : ℕ) / 2 : ℕ) : ℤ))) 1) : ℝ) *
        gKernel 3 1 k =
      (ch (tempPixel img33 3 3 1 k 1) : ℝ) * gKernel 3 1 k := by
    intro k hk
    rw [Finset.mem_range] at hk
    interval_cases k <;> rfl
  refine Eq.trans (Finset.sum_congr rfl hidx) ?_
  rw [Finset.sum_range_succ, Finset.sum_range_succ, Finset.sum_range_succ,
    Finset.sum_range_zero, temp33_01, temp33_11, temp33_21, h69, h0]
  push_cast
  ring

lemma fullPrec33_11 (ch : Pixel → ℕ) (hw : ch ⟨255, 255, 255⟩ = 255)
    (hb : ch ⟨0, 0, 0⟩ = 0) :
    fullPrecSum img33 3 3 3 1 1 1 ch =
      255 * ((Real.exp ((1 : ℝ) / 2) + 2)⁻¹ *
        (Real.exp ((1 : ℝ) / 2) + 2)⁻¹) := by
  unfold fullPrecSum
  have hidx : ∀ k ∈ Finset.range 3,
      hSum img33 3 3 1
        (clampIdx 3 (((1 : ℕ) : ℤ) + ((k : ℕ) : ℤ) - (((3 : ℕ) / 2 : ℕ) : ℤ))) 1 ch *
        gKernel 3 1 k =
      hSum img33 3 3 1 k 1 ch * gKernel 3 1 k := by
    intro k hk
    rw [Finset.mem_range] at hk
    interval_cases k <;> rfl
  refine Eq.trans (Finset.sum_congr rfl hidx) ?_
  rw [Finset.sum_range_succ, Finset.sum_range_succ, Finset.sum_range_succ,
    Finset.sum_range_zero, hSum_img33_01 ch hw hb,
    hSum_img33_black 1 (Or.inl rfl) 1 ch hb,
    hSum_img33_black 2 (Or.inr rfl) 1 ch hb, gKernel_310]
  ring

lemma direct2D33_11 (ch : Pixel → ℕ) (hw : ch ⟨255, 255, 255⟩ = 255)
    (hb : ch ⟨0, 0, 0⟩ = 0) :
    direct2DSum img33 3 3 3 1 1 1 ch =
      255 * ((Real.exp ((1 : ℝ) / 2) + 2)⁻¹ *
        (Real.exp ((1 : ℝ) / 2) + 2)⁻¹) := by
  unfold direct2DSum
  have hidx : ∀ j ∈ Finset.range 3, ∀ k ∈ Finset.range 3,
      (ch (pixelAt img33
        (clampIdx 3 (((1 : ℕ) : ℤ) + ((j : ℕ) : ℤ) - (((3 : ℕ) / 2 : ℕ) : ℤ)))
        (clampIdx 3 (((1 : ℕ) : ℤ) + ((k : ℕ) : ℤ) - (((3 : ℕ) / 2 : ℕ) : ℤ)))) : ℝ) *
        (gKernel 3 1 j * gKernel 3 1 k) =
      (ch (pixelAt img33 j k) : ℝ) * (gKernel 3 1 j * gKernel 3 1 k) := by
    intro j hj k hk
    rw [Finset.mem_range] at hj hk
    interval_cases j <;> interval_cases k <;> rfl
  refine Eq.trans (Finset.sum_congr rfl fun j hj =>
    Finset.sum_congr rfl fun k hk => hidx j hj k hk) ?_
  rw [Finset.sum_range_succ, Finset.sum_range_succ, Finset.sum_range_succ,
    Finset.sum_range_zero]
  rw [Finset.sum_range_succ, Finset.sum_range_succ, Finset.sum_range_succ,
    Finset.sum_range_zero]
  rw [Finset.sum_range_succ, Finset.sum_range_succ, Finset.sum_range_succ,
    Finset.sum_range_zero]
  rw [Finset.sum_range_succ, Finset.sum_range_succ, Finset.sum_range_succ,
    Finset.sum_range_zero]
  norm_num [pixelAt, img33, hw, hb, gKernel_310, gKernel_311, gKernel_312]

lemma result33_11 : resultPixel img33 3 3 3 1 1 1 = ⟨18, 18, 18⟩ := by
  unfold resultPixel
  rw [vSum33_11 Pixel.r rfl rfl, vSum33_11 Pixel.g rfl rfl,
    vSum33_11 Pixel.b rfl rfl, gKernel_310, clampByte_val_18]

/-- C1 is false as stated: on the spec's own 3x3 test image (black with a
white corner pixel), kernelSize 3 and sigma 1, the implemented two-pass
blur stores 18 in every channel of output pixel (1,1), while the direct
full 2D Gaussian convolution with the outer product of the same normalized
1D kernel stores 19 — a whole 8-bit quantization step apart, far beyond
floating-point tolerance. -/
theorem c1_counterexample :
    applyGaussianBlur img33 3 3 3 1 = .ok (blurGrid img33 3 3 3 1) ∧
    pixelAt (blurGrid img33 3 3 3 1) 1 1 = ⟨18, 18, 18⟩ ∧
    direct2DPixel img33 3 3 3 1 1 1 = ⟨19, 19, 19⟩ := by
  refine ⟨?_, ?_, ?_⟩
  · unfold applyGaussianBlur
    rw [if_neg (by decide), if_neg (by decide), if_neg (by decide)]
    rfl
  · have hpix : pixelAt (blurGrid img33 3 3 3 1) 1 1 =
        resultPixel img33 3 3 3 1 1 1 := rfl
    rw [hpix, result33_11]
  · unfold direct2DPixel
    rw [direct2D33_11 Pixel.r rfl rfl, direct2D33_11 Pixel.g rfl rfl,
      direct2D33_11 Pixel.b rfl rfl, clampByte_val_19]

/-- C9: the horizontal pass stores each channel of the intermediate buffer
clamped to [0, 255] and truncated toward zero to an 8-bit value (on the
test image the full-precision horizontal sum at (0,1) exceeds 69 but is
stored as exactly 69), every intermediate channel is at most 255, and the
vertical pass consumes these quantized values rather than the
full-precision sums: the final pixel (1,1) holds 18, whereas feeding the
full-precision horizontal sums to the vertical pass would store 19. -/
theorem c9_quantized_intermediate :
    tempPixel img33 3 3 1 0 1 = ⟨69, 69, 69⟩ ∧
    (69 : ℝ) < hSum img33 3 3 1 0 1 Pixel.r ∧
    resultPixel img33 3 3 3 1 1 1 = ⟨18, 18, 18⟩ ∧
    clampByte (fullPrecSum img33 3 3 3 1 1 1 Pixel.r) = 19 ∧
    (∀ imageData width kernelSize sigma y x,
      (tempPixel imageData width kernelSize sigma y x).r ≤ 255 ∧
      (tempPixel imageData width kernelSize sigma y x).g ≤ 255 ∧
      (tempPixel imageData width kernelSize sigma y x).b ≤ 255) := by
  refine ⟨temp33_01, ?_, result33_11, ?_, ?_⟩
  · rw [hSum_img33_01 Pixel.r rfl rfl, gKernel_310]
    exact gt_69_of_255A
  · rw [fullPrec33_11 Pixel.r rfl rfl]
    exact clampByte_val_19
  · intro imageData width kernelSize sigma y x
    exact ⟨clampByte_le _, clampByte_le _, clampByte_le _⟩

end ImageProcessor
